import Mathlib

/-!
Shallow embedding of the HTML-to-Markdown extraction core of the
`crawlee-python-tools` repository (files `src/web_scraper/utils.py`,
`src/web_scraper/converter.py`, `src/web_scraper/__init__.py`; the
`src/all_in_one_scraper.py` functions are line-for-line duplicates of the
converter's methods).  Definitions mirror the Python source; theorems settle
the specification claims about it.
-/

namespace WebScraper

/-! Section: Text sanitizers (`src/web_scraper/utils.py`) -/

/-- Characters removed by the four `re.sub` character-class deletions in
`clean_text` (utils.py lines 20-23): zero-width characters / BOM / soft
hyphen, C0 and C1 control characters, the Private Use Area, and the
Specials block. -/
def removedByCleanText (c : Char) : Bool :=
  (0x200B ≤ c.toNat && c.toNat ≤ 0x200F) || c.toNat = 0xFEFF || c.toNat = 0x2060 ||
  c.toNat = 0x00AD ||
  (c.toNat ≤ 0x001F) || (0x007F ≤ c.toNat && c.toNat ≤ 0x009F) ||
  (0xE000 ≤ c.toNat && c.toNat ≤ 0xF8FF) ||
  (0xFFF0 ≤ c.toNat && c.toNat ≤ 0xFFFF)

/-- Python's `str.isspace` / `str.strip` whitespace set. -/
def pyIsSpace (c : Char) : Bool :=
  (0x09 ≤ c.toNat && c.toNat ≤ 0x0D) || (0x1C ≤ c.toNat && c.toNat ≤ 0x1F) ||
  c.toNat = 0x20 || c.toNat = 0x85 || c.toNat = 0xA0 || c.toNat = 0x1680 ||
  (0x2000 ≤ c.toNat && c.toNat ≤ 0x200A) || c.toNat = 0x2028 || c.toNat = 0x2029 ||
  c.toNat = 0x202F || c.toNat = 0x205F || c.toNat = 0x3000

/-- Model of `text.replace('\t', ' ')` (utils.py line 25). -/
def replaceTabSpace (l : List Char) : List Char :=
  l.map fun c => if c = '\t' then ' ' else c

/-- Model of `re.sub(r' +', ' ', text)` (utils.py line 26): collapse each maximal run
of U+0020 spaces to a single space. -/
def collapseSpaces : List Char → List Char
  | [] => []
  | [c] => [c]
  | c :: d :: rest =>
    if c = ' ' && d = ' ' then collapseSpaces (d :: rest)
    else c :: collapseSpaces (d :: rest)

/-- Python `str.strip()`: drop leading and trailing whitespace characters. -/
def stripChars (l : List Char) : List Char :=
  ((l.dropWhile pyIsSpace).reverse.dropWhile pyIsSpace).reverse

/-- Body of `clean_text` from utils.py on the character list of the string. -/
def cleanTextL (l : List Char) : List Char :=
  stripChars (collapseSpaces (replaceTabSpace (l.filter fun c => !removedByCleanText c)))

/-- Definition `clean_text(text)` (utils.py lines 7-27).  The `if not text: return ""`
guard is absorbed: every step maps the empty string to itself. -/
def clean_text (s : String) : String :=
  String.mk (cleanTextL s.data)

/-- Model of `text.replace('\t', '    ')` (utils.py line 42). -/
def replaceTabFour (l : List Char) : List Char :=
  l.flatMap fun c => if c = '\t' then [' ', ' ', ' ', ' '] else [c]

/-- Definition `clean_code_text(text)` (utils.py lines 30-44): tabs become four spaces,
then only the leading/trailing whitespace of the whole block is stripped. -/
def clean_code_text (s : String) : String :=
  String.mk (stripChars (replaceTabFour s.data))

end WebScraper

namespace WebScraper

/-! Section: DOM model (BeautifulSoup tree as consumed by converter.py)

A node is either a `NavigableString` or a `Tag` with a name and children.
`html.parser` stores tag names already lowercased; the model keeps names as
strings and applies the same `.lower()` calls the source applies. -/

inductive Node where
  | text : String → Node
  | elem : String → List Node → Node

mutual

/-- BeautifulSoup `get_text()`: concatenation of all descendant strings in
document order. -/
def Node.getText : Node → String
  | .text s => s
  | .elem _ cs => getTextList cs

def getTextList : List Node → String
  | [] => ""
  | c :: cs => c.getText ++ getTextList cs

end

mutual

/-- All descendants of a node (excluding the node itself), document order. -/
def Node.descendants : Node → List Node
  | .text _ => []
  | .elem _ cs => descendantsList cs

def descendantsList : List Node → List Node
  | [] => []
  | c :: cs => c :: c.descendants ++ descendantsList cs

end

/-- Does the node carry the given tag name (BeautifulSoup name filter)? -/
def tagIs (name : String) : Node → Bool
  | .text _ => false
  | .elem t _ => t = name

/-- Model of `node.find_all(...)` with a name filter: matching descendants in
document order. -/
def findAll (p : Node → Bool) (n : Node) : List Node :=
  n.descendants.filter p

/-- ASCII lowercasing, as applied by `.lower()` on ASCII tag names and by
`text.lower()` in the language heuristic. -/
def lowerChar (c : Char) : Char :=
  if 'A' ≤ c && c ≤ 'Z' then Char.ofNat (c.toNat + 32) else c

def lowerStr (s : String) : String :=
  String.mk (s.data.map lowerChar)

/-- Is `needle` a contiguous substring of `hay` (Python `in` on strings)? -/
def strContains (hay needle : String) : Bool :=
  hay.data.tails.any fun t => needle.data.isPrefixOf t

/-! Section: Content items (the dictionaries appended by `_extract_all_text_content`) -/

structure TableData where
  headers : List String
  rows : List (List String)
deriving DecidableEq, Repr

inductive ContentItem where
  | plainText : String → Nat → ContentItem
  | heading : Nat → String → ContentItem
  | table : TableData → ContentItem
  | listItem : List String → Bool → ContentItem
  | code : String → String → ContentItem
  | bold : String → ContentItem
  | italic : String → ContentItem
  | paragraph : String → ContentItem
deriving DecidableEq, Repr

/-- The `'type'` field of the dictionary each variant models. -/
def ContentItem.typeName : ContentItem → String
  | .plainText _ _ => "text"
  | .heading _ _ => "heading"
  | .table _ => "table"
  | .listItem _ _ => "list"
  | .code _ _ => "code"
  | .bold _ => "bold"
  | .italic _ => "italic"
  | .paragraph _ => "paragraph"

/-! Section: Table extractor (`_extract_table_data`, converter.py lines 181-199) -/

/-- Model of `row.find_all(['th', 'td'])`. -/
def rowCells (row : Node) : List Node :=
  findAll (fun n => tagIs "th" n || tagIs "td" n) row

/-- Model of `row.find('th')` used as a truth value. -/
def rowHasTh (row : Node) : Bool :=
  !(findAll (tagIs "th") row).isEmpty

/-- Model of `[clean_text(cell.get_text()) for cell in cells]`. -/
def cellTexts (row : Node) : List String :=
  (rowCells row).map fun c => clean_text c.getText

/-- One iteration of the `for i, row in enumerate(all_rows)` loop body,
acting on the `(headers, rows)` accumulator. -/
def tableStep (i : Nat) (acc : List String × List (List String)) (row : Node) :
    List String × List (List String) :=
  if (rowCells row).isEmpty then acc
  else
    let ts := cellTexts row
    if ts.any (fun s => s ≠ "") then
      if i == 0 && rowHasTh row then (ts, acc.2) else (acc.1, acc.2 ++ [ts])
    else acc

def tableScan (i : Nat) (acc : List String × List (List String)) :
    List Node → List String × List (List String)
  | [] => acc
  | r :: rs => tableScan (i + 1) (tableStep i acc r) rs

/-- Model of `table_element.find_all('tr')`. -/
def tableTrs (t : Node) : List Node :=
  findAll (tagIs "tr") t

/-- Definition `_extract_table_data(table_element)`: returns the headers/rows record,
or `none` when no data row survived. -/
def extract_table_data (t : Node) : Option TableData :=
  let hr := tableScan 0 ([], []) (tableTrs t)
  if hr.2 ≠ [] then some ⟨hr.1, hr.2⟩ else none

/-! Section: List extractor (`_extract_list_items`, converter.py lines 201-211) -/

/-- Model of `list_element.find_all('li', recursive=False)`: direct children only. -/
def directLis : Node → List Node
  | .text _ => []
  | .elem _ cs => cs.filter (tagIs "li")

/-- The surviving sanitized item texts of `_extract_list_items`. -/
def extract_list_items (n : Node) : List String :=
  ((directLis n).map fun li => clean_text li.getText).filter fun t => t ≠ ""

/-! Section: Inline formatter (`_process_inline_elements`, converter.py lines 51-71) -/

/-- Contribution of one child of a paragraph. -/
def inlinePiece : Node → String
  | .text s => clean_text s
  | .elem tag cs =>
    let tn := lowerStr tag
    let t := clean_text (getTextList cs)
    if tn = "strong" || tn = "b" then "**" ++ t ++ "**"
    else if tn = "em" || tn = "i" then "*" ++ t ++ "*"
    else if tn = "code" then "`" ++ t ++ "`"
    else t

def process_inline_elements (children : List Node) : String :=
  clean_text ((children.map inlinePiece).foldl (· ++ ·) "")

/-! Section: Block extractor (`_extract_all_text_content`, converter.py lines 73-179)

`process_element(elem, level)` is modelled with the parent's tag name passed
explicitly (used only by the `<pre><code>` double-emission guard, which in
the source reads `elem.parent.name == 'pre'`). -/

/-- The fixed keyword set of the language heuristic (converter.py line 132). -/
def jsKeywords : List String := ["var", "function", "script", "eformsign"]

def languageOf (text : String) : String :=
  if jsKeywords.any (fun kw => strContains (lowerStr text) kw) then "javascript"
  else "text"

mutual

def processElement (n : Node) (level : Nat) (parent : Option String) :
    List ContentItem :=
  match n with
  | .text s =>
    let t := clean_text s
    if t ≠ "" && t.length > 2 then [.plainText t level] else []
  | .elem tag cs =>
    let tn := lowerStr tag
    if tn = "h1" || tn = "h2" || tn = "h3" || tn = "h4" || tn = "h5" || tn = "h6" then
      let t := clean_text (getTextList cs)
      let lvl := (tn.data.drop 1).headI.toNat - '0'.toNat
      if t ≠ "" then [.heading lvl t] else []
    else if tn = "table" then
      match extract_table_data (.elem tag cs) with
      | some td => [.table td]
      | none => []
    else if tn = "ul" || tn = "ol" then
      let items := extract_list_items (.elem tag cs)
      if items ≠ [] then [.listItem items (tn = "ol")] else []
    else if tn = "pre" || tn = "code" then
      let t := clean_code_text (getTextList cs)
      if t ≠ "" && t.length > 5 then
        if tn = "code" && parent = some "pre" then []
        else [.code t (languageOf t)]
      else []
    else if tn = "strong" || tn = "b" then
      let t := clean_text (getTextList cs)
      if t ≠ "" && t.length > 1 then [.bold t] else []
    else if tn = "em" || tn = "i" then
      let t := clean_text (getTextList cs)
      if t ≠ "" && t.length > 1 then [.italic t] else []
    else if tn = "p" then
      let t := process_inline_elements cs
      if t ≠ "" && t.length > 1 then [.paragraph t] else []
    else if tn = "script" || tn = "style" || tn = "nav" || tn = "header" ||
        tn = "footer" then []
    else processChildren cs (level + 1) (some tag)

def processChildren (cs : List Node) (level : Nat) (parent : Option String) :
    List ContentItem :=
  match cs with
  | [] => []
  | c :: rest => processElement c level parent ++ processChildren rest level parent

end

/-- Definition `_extract_all_text_content(element)`: the extractor's entry point.  The
root's parent tag is irrelevant to every branch except the dead
`<pre><code>` guard, so it is passed as `none`. -/
def extract_all_text_content (root : Node) : List ContentItem :=
  processElement root 0 none

/-! Section: Markdown renderer (`_create_markdown`, converter.py lines 213-323)

The two `datetime.now().strftime(...)` reads are inputs `now1` (header
"생성일" line) and `now2` (final "생성 시간" line). -/

structure Metadata where
  url : String
  page_title : String
deriving DecidableEq, Repr

/-- Fallback title `metadata['page_title'] or "웹페이지 가이드"` (Python `or`:
empty string is falsy). -/
def docTitle (md : Metadata) : String :=
  if md.page_title = "" then "웹페이지 가이드" else md.page_title

/-- Model of `' | '.join(cells)` etc. -/
def joinSep (sep : String) : List String → String
  | [] => ""
  | x :: xs => xs.foldl (fun a b => a ++ sep ++ b) x

/-- The document header block (converter.py lines 217-230). -/
def headerLines (md : Metadata) (now1 : String) : List String :=
  ["# " ++ docTitle md,
   "",
   "> **자동 생성된 가이드 문서**",
   "",
   "**출처**: " ++ md.url,
   "**제목**: " ++ md.page_title,
   "**생성일**: " ++ now1,
   "",
   "---",
   ""]

/-- The lines one content item contributes (the per-type branches of the
conversion loop, converter.py lines 233-299). -/
def renderItem : ContentItem → List String
  | .heading level content => [String.mk (List.replicate level '#') ++ " " ++ content, ""]
  | .paragraph content => [content, ""]
  | .plainText content _ => [content, ""]
  | .code content language => ["```" ++ language, content, "```", ""]
  | .table td =>
    (if td.headers ≠ [] then
      ["| " ++ joinSep " | " td.headers ++ " |",
       "|" ++ String.join (List.replicate td.headers.length "---|")]
    else []) ++
    ((td.rows.filter fun row => row ≠ []).map fun row =>
      "| " ++ joinSep " | " row ++ " |") ++
    [""]
  | .bold content => ["**" ++ content ++ "**", ""]
  | .italic content => ["*" ++ content ++ "*", ""]
  | .listItem items ordered =>
    (items.mapIdx fun i it =>
      if ordered then toString (i + 1) ++ ". " ++ it else "- " ++ it) ++ [""]

/-- The `type_counts` dictionary built by the statistics loop
(converter.py lines 302-305), as a total function with default 0. -/
def typeCounts (items : List ContentItem) : String → Nat :=
  items.foldl (fun f it => fun s => if s = it.typeName then f s + 1 else f s)
    (fun _ => 0)

/-- The statistics footer block (converter.py lines 307-323). -/
def statsLines (items : List ContentItem) (now2 : String) : List String :=
  let tc := typeCounts items
  ["---",
   "",
   "## 📊 문서 정보",
   "",
   "- **추출된 총 요소**: " ++ toString items.length ++ "개",
   "- **헤딩**: " ++ toString (tc "heading") ++ "개",
   "- **문단**: " ++ toString (tc "paragraph" + tc "text") ++ "개",
   "- **코드 블록**: " ++ toString (tc "code") ++ "개",
   "- **테이블**: " ++ toString (tc "table") ++ "개",
   "- **리스트**: " ++ toString (tc "list") ++ "개",
   "",
   "**✅ 자동 생성 완료**: 웹페이지를 완전히 마크다운으로 변환했습니다.",
   "",
   "*생성 도구: web_scraper 모듈*",
   "*생성 시간: " ++ now2 ++ "*"]

/-- Definition `_create_markdown(metadata)` run on an extracted item sequence: the
list `self.markdown_lines` it builds (joined with newlines by `convert`). -/
def create_markdown (items : List ContentItem) (md : Metadata)
    (now1 now2 : String) : List String :=
  headerLines md now1 ++ items.flatMap renderItem ++ statsLines items now2

/-! Section: Python package import (`src/web_scraper/__init__.py`)

`from .utils import clean_text, clean_code_text, generate_filename` binds the
requested names from the imported module's namespace, raising `ImportError`
on the first missing one; module initialization aborts at that point. -/

/-- The top-level names bound in `src/web_scraper/scraper.py`. -/
def scraperModuleNames : List String :=
  ["asyncio", "Dict", "Optional", "datetime", "PlaywrightCrawler", "WebScraper"]

/-- The top-level names bound in `src/web_scraper/converter.py`. -/
def converterModuleNames : List String :=
  ["re", "List", "Dict", "Any", "Optional", "datetime", "BeautifulSoup",
   "NavigableString", "Tag", "clean_text", "clean_code_text", "MarkdownConverter"]

/-- The top-level names bound in `src/web_scraper/utils.py`: its two imports
and its three function definitions.  There is no `generate_filename`. -/
def utilsModuleNames : List String :=
  ["re", "urllib", "clean_text", "clean_code_text", "generate_output_paths"]

/-- Semantics of `from <module> import <names>`: succeeds iff every requested name exists
in the module's namespace; otherwise the first missing name raises. -/
def fromImport (exports : List String) : List String → Except String Unit
  | [] => .ok ()
  | n :: ns =>
    if exports.contains n then fromImport exports ns
    else .error ("ImportError: cannot import name " ++ n)

/-- Executing `src/web_scraper/__init__.py` top to bottom: the three
`from ... import ...` statements, then the `__all__` list of public names. -/
def webScraperPackageInit : Except String (List String) := do
  fromImport scraperModuleNames ["WebScraper"]
  fromImport converterModuleNames ["MarkdownConverter"]
  fromImport utilsModuleNames ["clean_text", "clean_code_text", "generate_filename"]
  pure ["WebScraper", "MarkdownConverter", "clean_text", "clean_code_text",
        "generate_filename"]

/-! Section: Helper predicates and spec-side characterizations -/

/-- Predicate: `a` occurs as a contiguous segment of `b`. -/
def SubSeg {α : Type _} (a b : List α) : Prop :=
  ∃ s t, b = s ++ a ++ t

def ContentItem.isTable : ContentItem → Bool
  | .table _ => true
  | _ => false

def ContentItem.isParagraph : ContentItem → Bool
  | .paragraph _ => true
  | _ => false

def ContentItem.isPlainText : ContentItem → Bool
  | .plainText _ _ => true
  | _ => false

/-- A row survives sanitization: some cell text is non-empty (rows with no
`th`/`td` cells at all have no cell texts, hence never survive). -/
def rowSurvives (row : Node) : Bool :=
  (cellTexts row).any fun s => s ≠ ""

/-- The header the converter actually produces: the cell texts of the row at
index 0 in document order, if that row survives and contains a `th`. -/
def headerOfTrs : List Node → List String
  | [] => []
  | r :: _ => if rowSurvives r && rowHasTh r then cellTexts r else []

/-- The data rows the converter actually produces: every surviving row except
the one consumed as header. -/
def dataRowsOfTrs : List Node → List (List String)
  | [] => []
  | r :: rest =>
    (if rowSurvives r && !rowHasTh r then [cellTexts r] else []) ++
      (rest.filter rowSurvives).map cellTexts

/-- Per-item bounds every emitted item satisfies (claim C10's lengths). -/
def itemOk : ContentItem → Bool
  | .plainText t _ => decide (3 ≤ t.length)
  | .heading _ t => decide (1 ≤ t.length)
  | .table _ => true
  | .listItem its _ => its.all fun s => s ≠ ""
  | .code t _ => decide (6 ≤ t.length)
  | .bold t => decide (2 ≤ t.length)
  | .italic t => decide (2 ≤ t.length)
  | .paragraph t => decide (2 ≤ t.length)

/-- The clock-independent prefix of the rendered document (everything before
the "생성일" line). -/
def mdFront (md : Metadata) : List String :=
  ["# " ++ docTitle md,
   "",
   "> **자동 생성된 가이드 문서**",
   "",
   "**출처**: " ++ md.url,
   "**제목**: " ++ md.page_title]

/-- The clock-independent middle of the rendered document (everything
strictly between the "생성일" line and the final "생성 시간" line). -/
def mdMiddle (items : List ContentItem) : List String :=
  let tc := typeCounts items
  ["", "---", ""] ++ items.flatMap renderItem ++
  ["---",
   "",
   "## 📊 문서 정보",
   "",
   "- **추출된 총 요소**: " ++ toString items.length ++ "개",
   "- **헤딩**: " ++ toString (tc "heading") ++ "개",
   "- **문단**: " ++ toString (tc "paragraph" + tc "text") ++ "개",
   "- **코드 블록**: " ++ toString (tc "code") ++ "개",
   "- **테이블**: " ++ toString (tc "table") ++ "개",
   "- **리스트**: " ++ toString (tc "list") ++ "개",
   "",
   "**✅ 자동 생성 완료**: 웹페이지를 완전히 마크다운으로 변환했습니다.",
   "",
   "*생성 도구: web_scraper 모듈*"]

/-- Relation "no two adjacent plain spaces", the shape `collapseSpaces`
establishes. -/
def spR (a b : Char) : Prop := ¬(a = ' ' ∧ b = ' ')

/-! Section: Concrete sample trees used by counterexamples and witnesses -/

/-- A `<pre>` element whose text content is tab, foo, newline, tab, bar. -/
def preFooBar : Node := .elem "pre" [.text "\tfoo\n\tbar"]

/-- A table whose very first row is skipped as empty and whose second row
contains a `th`. -/
def c3Table : Node :=
  .elem "table"
    [.elem "tr" [.elem "td" [.text ""]],
     .elem "tr" [.elem "th" [.text "X"], .elem "td" [.text "Y"]]]

/-- The second row of `c3Table`. -/
def c3Row2 : Node := .elem "tr" [.elem "th" [.text "X"], .elem "td" [.text "Y"]]

/-- A table whose only surviving row is a header row. -/
def headerOnlyTable : Node :=
  .elem "table" [.elem "tr" [.elem "th" [.text "H"]]]

/-- A table with one header row and one data row. -/
def twoRowTable : Node :=
  .elem "table" [.elem "tr" [.elem "th" [.text "H"]], .elem "tr" [.elem "td" [.text "x"]]]

/-- A sample metadata record. -/
def mdSample : Metadata := ⟨"https://example.com", "T"⟩

/-! Section: Table extractor lemmas -/

theorem tableStep_eq (i : Nat) (acc : List String × List (List String)) (r : Node) :
    tableStep i acc r =
      if rowSurvives r then
        if i == 0 && rowHasTh r then (cellTexts r, acc.2)
        else (acc.1, acc.2 ++ [cellTexts r])
      else acc := by
  unfold tableStep rowSurvives
  cases h : (rowCells r).isEmpty with
  | true =>
    have : cellTexts r = [] := by
      unfold cellTexts
      simp [List.isEmpty_iff.mp h]
    simp [this]
  | false => simp [cellTexts]

theorem tableScan_pos (rs : List Node) :
    ∀ (i : Nat) (acc : List String × List (List String)), 1 ≤ i →
      tableScan i acc rs = (acc.1, acc.2 ++ (rs.filter rowSurvives).map cellTexts) := by
  induction rs with
  | nil => intro i acc _; simp [tableScan]
  | cons r rest ih =>
    intro i acc hi
    have hbeq : (i == 0) = false := by
      cases i with
      | zero => omega
      | succ n => rfl
    rw [tableScan, tableStep_eq]
    cases hs : rowSurvives r with
    | true =>
      simp only [hbeq, Bool.false_and, if_neg Bool.false_ne_true, if_pos rfl]
      rw [ih (i+1) _ (by omega)]
      simp [hs]
    | false =>
      rw [ih (i+1) _ (by omega)]
      simp [hs]

/-- Full characterization of `_extract_table_data`: the header comes from the
row at index 0 only; the data rows are the remaining surviving rows; the
result is `none` exactly when no data row survives. -/
theorem extract_table_data_eq (t : Node) :
    extract_table_data t =
      if dataRowsOfTrs (tableTrs t) = [] then none
      else some ⟨headerOfTrs (tableTrs t), dataRowsOfTrs (tableTrs t)⟩ := by
  unfold extract_table_data
  cases htrs : tableTrs t with
  | nil => simp [tableScan, headerOfTrs, dataRowsOfTrs]
  | cons r rest =>
    rw [tableScan, tableStep_eq]
    cases hs : rowSurvives r with
    | true =>
      cases hth : rowHasTh r with
      | true =>
        simp only [if_pos rfl, Bool.and_true, beq_self_eq_true]
        rw [tableScan_pos rest 1 _ (by omega)]
        simp only [headerOfTrs, dataRowsOfTrs, hs, hth, Bool.and_true, Bool.not_true,
          Bool.and_false, if_pos rfl, if_neg Bool.false_ne_true, List.nil_append]
        by_cases hrows : (rest.filter rowSurvives).map cellTexts = [] <;>
          simp [hrows]
      | false =>
        simp only [Bool.and_false, if_neg Bool.false_ne_true, if_pos rfl]
        rw [tableScan_pos rest 1 _ (by omega)]
        simp only [headerOfTrs, dataRowsOfTrs, hs, hth, Bool.and_false, Bool.not_false,
          Bool.and_true, if_neg Bool.false_ne_true, if_pos rfl, List.nil_append,
          List.singleton_append, List.cons_append]
        by_cases hrows : cellTexts r :: (rest.filter rowSurvives).map cellTexts = [] <;>
          simp [hrows]
    | false =>
      simp only [if_neg Bool.false_ne_true]
      rw [tableScan_pos rest 1 _ (by omega)]
      simp only [headerOfTrs, dataRowsOfTrs, hs, Bool.false_and, if_neg Bool.false_ne_true,
        List.nil_append]
      by_cases hrows : (rest.filter rowSurvives).map cellTexts = [] <;>
        simp [hrows]

end WebScraper

namespace WebScraper

/-! Section: Sanitizer lemmas (towards idempotence of `clean_text`) -/

theorem getLast?_dropWhile_of_ne_nil {p : Char → Bool} :
    ∀ {l : List Char}, l.dropWhile p ≠ [] → (l.dropWhile p).getLast? = l.getLast? := by
  intro l
  induction l with
  | nil => intro h; exact absurd rfl h
  | cons c t ih =>
    intro h
    by_cases hp : p c = true
    · rw [List.dropWhile_cons_of_pos hp] at h ⊢
      rw [ih h]
      cases t with
      | nil => rw [List.dropWhile_nil] at h; exact absurd rfl h
      | cons d t' => rw [List.getLast?_cons_cons]
    · rw [List.dropWhile_cons_of_neg hp]

theorem subSeg_trans {α : Type _} {a b c : List α} (h1 : SubSeg a b) (h2 : SubSeg b c) :
    SubSeg a c := by
  obtain ⟨s, t, rfl⟩ := h1
  obtain ⟨u, v, rfl⟩ := h2
  exact ⟨u ++ s, t ++ v, by simp⟩

theorem subSeg_reverse {α : Type _} {a b : List α} (h : SubSeg a b) :
    SubSeg a.reverse b.reverse := by
  obtain ⟨s, t, rfl⟩ := h
  exact ⟨t.reverse, s.reverse, by simp⟩

theorem subSeg_dropWhile (p : Char → Bool) (l : List Char) :
    SubSeg (l.dropWhile p) l :=
  ⟨l.takeWhile p, [], by simp [List.takeWhile_append_dropWhile]⟩

theorem stripChars_subSeg (l : List Char) : SubSeg (stripChars l) l := by
  unfold stripChars
  have h1 : SubSeg ((l.dropWhile pyIsSpace).reverse.dropWhile pyIsSpace).reverse
      (l.dropWhile pyIsSpace).reverse.reverse :=
    subSeg_reverse (subSeg_dropWhile pyIsSpace (l.dropWhile pyIsSpace).reverse)
  rw [List.reverse_reverse] at h1
  exact subSeg_trans h1 (subSeg_dropWhile pyIsSpace l)

theorem chain'_of_subSeg {a b : List Char} {R : Char → Char → Prop}
    (hab : SubSeg a b) (hb : List.Chain' R b) : List.Chain' R a := by
  obtain ⟨s, t, rfl⟩ := hab
  exact (List.chain'_append.mp (List.chain'_append.mp hb).1).2.1

theorem mem_of_subSeg {α : Type _} {a b : List α} {c : α} (hab : SubSeg a b)
    (hc : c ∈ a) : c ∈ b := by
  obtain ⟨s, t, rfl⟩ := hab
  simp [hc]

theorem head?_stripChars_not {l : List Char} {a : Char}
    (h : (stripChars l).head? = some a) : pyIsSpace a = false := by
  unfold stripChars at h
  rw [List.head?_reverse] at h
  have hne : (l.dropWhile pyIsSpace).reverse.dropWhile pyIsSpace ≠ [] := by
    intro hnil
    rw [hnil] at h
    exact Option.noConfusion h
  rw [getLast?_dropWhile_of_ne_nil hne, List.getLast?_reverse] at h
  have := List.head?_dropWhile_not pyIsSpace l
  rw [h] at this
  exact this

theorem getLast?_stripChars_not {l : List Char} {a : Char}
    (h : (stripChars l).getLast? = some a) : pyIsSpace a = false := by
  unfold stripChars at h
  rw [List.getLast?_reverse] at h
  have := List.head?_dropWhile_not pyIsSpace (l.dropWhile pyIsSpace).reverse
  rw [h] at this
  exact this

theorem dropWhile_eq_self_of_head {p : Char → Bool} {l : List Char}
    (h : ∀ a, l.head? = some a → p a = false) : l.dropWhile p = l := by
  cases l with
  | nil => rfl
  | cons c t =>
    have := h c rfl
    rw [List.dropWhile_cons_of_neg (by simp [this])]

theorem stripChars_eq_self {l : List Char}
    (hh : ∀ a, l.head? = some a → pyIsSpace a = false)
    (hl : ∀ a, l.getLast? = some a → pyIsSpace a = false) : stripChars l = l := by
  unfold stripChars
  rw [dropWhile_eq_self_of_head hh]
  have : l.reverse.dropWhile pyIsSpace = l.reverse := by
    apply dropWhile_eq_self_of_head
    intro a ha
    rw [List.head?_reverse] at ha
    exact hl a ha
  rw [this, List.reverse_reverse]

theorem collapseSpaces_sublist (l : List Char) : (collapseSpaces l).Sublist l := by
  induction l using collapseSpaces.induct with
  | case1 => simp [collapseSpaces]
  | case2 c => simp [collapseSpaces]
  | case3 c d rest hcd ih =>
    rw [collapseSpaces, if_pos hcd]
    exact ih.cons c
  | case4 c d rest hcd ih =>
    rw [collapseSpaces, if_neg hcd]
    exact ih.cons₂ c

theorem collapseSpaces_head? (x : Char) (xs : List Char) :
    (collapseSpaces (x :: xs)).head? = some x := by
  induction xs generalizing x with
  | nil => rfl
  | cons d rest ih =>
    rw [collapseSpaces]
    by_cases h : x = ' ' && d = ' '
    · rw [if_pos h]
      have h2 := (Bool.and_eq_true _ _).mp h
      have hx : x = ' ' := of_decide_eq_true h2.1
      have hd : d = ' ' := of_decide_eq_true h2.2
      rw [ih d, hd, hx]
    · rw [if_neg h]
      rfl

theorem chain'_collapseSpaces (l : List Char) : List.Chain' spR (collapseSpaces l) := by
  induction l using collapseSpaces.induct with
  | case1 => simp [collapseSpaces]
  | case2 c => simp [collapseSpaces]
  | case3 c d rest hcd ih =>
    rw [collapseSpaces, if_pos hcd]
    exact ih
  | case4 c d rest hcd ih =>
    rw [collapseSpaces, if_neg hcd]
    rw [List.chain'_cons']
    refine ⟨?_, ih⟩
    intro y hy
    rw [collapseSpaces_head? d rest] at hy
    simp only [Option.mem_def, Option.some.injEq] at hy
    subst hy
    intro hcontra
    exact hcd (by simp [hcontra.1, hcontra.2])

theorem collapseSpaces_eq_self {l : List Char} (h : List.Chain' spR l) :
    collapseSpaces l = l := by
  induction l using collapseSpaces.induct with
  | case1 => rfl
  | case2 c => rfl
  | case3 c d rest hcd ih =>
    exfalso
    have h2 := (Bool.and_eq_true _ _).mp hcd
    exact (List.chain'_cons.mp h).1 ⟨of_decide_eq_true h2.1, of_decide_eq_true h2.2⟩
  | case4 c d rest hcd ih =>
    rw [collapseSpaces, if_neg hcd, ih (List.chain'_cons.mp h).2]

theorem mem_replaceTabSpace {c : Char} {l : List Char} (h : c ∈ replaceTabSpace l) :
    c = ' ' ∨ c ∈ l := by
  unfold replaceTabSpace at h
  obtain ⟨d, hd, hc⟩ := List.mem_map.mp h
  by_cases ht : d = '\t'
  · left
    rw [← hc, ht]
    rfl
  · right
    rw [← hc, if_neg ht]
    exact hd

theorem replaceTabSpace_eq_self {l : List Char} (h : ∀ c ∈ l, c ≠ '\t') :
    replaceTabSpace l = l := by
  unfold replaceTabSpace
  rw [List.map_congr_left fun c hc => if_neg (h c hc)]
  exact List.map_id l

theorem cleanTextL_no_removed {l : List Char} {c : Char} (hc : c ∈ cleanTextL l) :
    removedByCleanText c = false := by
  unfold cleanTextL at hc
  have h1 : c ∈ collapseSpaces (replaceTabSpace (l.filter fun c => !removedByCleanText c)) :=
    mem_of_subSeg (stripChars_subSeg _) hc
  have h2 : c ∈ replaceTabSpace (l.filter fun c => !removedByCleanText c) :=
    (collapseSpaces_sublist _).subset h1
  rcases mem_replaceTabSpace h2 with hsp | hmem
  · rw [hsp]
    decide
  · have := List.of_mem_filter hmem
    simpa using this

theorem cleanTextL_no_tab {l : List Char} {c : Char} (hc : c ∈ cleanTextL l) :
    c ≠ '\t' := by
  intro ht
  have := cleanTextL_no_removed hc
  rw [ht] at this
  exact absurd this (by decide)

theorem cleanTextL_chain' (l : List Char) : List.Chain' spR (cleanTextL l) := by
  unfold cleanTextL
  exact chain'_of_subSeg (stripChars_subSeg _) (chain'_collapseSpaces _)

/-- Idempotence of `clean_text` at the character-list level. -/
theorem cleanTextL_idem (l : List Char) : cleanTextL (cleanTextL l) = cleanTextL l := by
  have hfilter : (cleanTextL l).filter (fun c => !removedByCleanText c) = cleanTextL l :=
    List.filter_eq_self.mpr fun c hc => by simp [cleanTextL_no_removed hc]
  have hreplace : replaceTabSpace (cleanTextL l) = cleanTextL l :=
    replaceTabSpace_eq_self fun c hc => cleanTextL_no_tab hc
  have hcollapse : collapseSpaces (cleanTextL l) = cleanTextL l :=
    collapseSpaces_eq_self (cleanTextL_chain' l)
  have hstrip : stripChars (cleanTextL l) = cleanTextL l := by
    apply stripChars_eq_self
    · intro a ha
      exact head?_stripChars_not (l := collapseSpaces (replaceTabSpace
        (l.filter fun c => !removedByCleanText c))) ha
    · intro a ha
      exact getLast?_stripChars_not (l := collapseSpaces (replaceTabSpace
        (l.filter fun c => !removedByCleanText c))) ha
  conv_lhs => rw [cleanTextL]
  rw [hfilter, hreplace, hcollapse, hstrip]

/-! Section: Extractor lemmas (item bounds) -/

theorem extract_list_items_ne_empty (n : Node) :
    (extract_list_items n).all (fun s => s ≠ "") = true := by
  unfold extract_list_items
  rw [List.all_eq_true]
  intro s hs
  have := List.of_mem_filter hs
  simpa using this

theorem length_pos_of_ne_empty {s : String} (h : s ≠ "") : 1 ≤ s.length := by
  cases s with
  | mk data =>
    cases data with
    | nil => exact absurd rfl h
    | cons c cs =>
      show 1 ≤ (c :: cs).length
      simp

mutual

theorem processElement_ok (n : Node) (level : Nat) (parent : Option String) :
    (processElement n level parent).all itemOk = true := by
  cases n with
  | text s =>
    rw [processElement]
    split
    · next h =>
      have h2 := (Bool.and_eq_true _ _).mp h
      have hlen : (clean_text s).length > 2 := of_decide_eq_true h2.2
      simp [itemOk]
      omega
    · rfl
  | elem tag cs =>
    rw [processElement]
    dsimp only
    split
    · split
      · next hne =>
        have hlen : 1 ≤ (clean_text (getTextList cs)).length :=
          length_pos_of_ne_empty hne
        simp [itemOk]
        omega
      · rfl
    · split
      · split
        · simp [itemOk]
        · rfl
      · split
        · split
          · next hne =>
            simp only [List.all_cons, List.all_nil, Bool.and_true, itemOk]
            exact extract_list_items_ne_empty (.elem tag cs)
          · rfl
        · split
          · split
            · next h =>
              split
              · rfl
              · have h2 := (Bool.and_eq_true _ _).mp h
                have hlen : (clean_code_text (getTextList cs)).length > 5 :=
                  of_decide_eq_true h2.2
                simp [itemOk]
                omega
            · rfl
          · split
            · split
              · next h =>
                have h2 := (Bool.and_eq_true _ _).mp h
                have hlen : (clean_text (getTextList cs)).length > 1 :=
                  of_decide_eq_true h2.2
                simp [itemOk]
                omega
              · rfl
            · split
              · split
                · next h =>
                  have h2 := (Bool.and_eq_true _ _).mp h
                  have hlen : (clean_text (getTextList cs)).length > 1 :=
                    of_decide_eq_true h2.2
                  simp [itemOk]
                  omega
                · rfl
              · split
                · split
                  · next h =>
                    have h2 := (Bool.and_eq_true _ _).mp h
                    have hlen : (process_inline_elements cs).length > 1 :=
                      of_decide_eq_true h2.2
                    simp [itemOk]
                    omega
                  · rfl
                · split
                  · rfl
                  · exact processChildren_ok cs (level + 1) (some tag)

theorem processChildren_ok (cs : List Node) (level : Nat) (parent : Option String) :
    (processChildren cs level parent).all itemOk = true := by
  cases cs with
  | nil => rfl
  | cons c rest =>
    rw [processChildren, List.all_append]
    rw [processElement_ok c level parent, processChildren_ok rest level parent]
    rfl

end

/-! Section: Renderer lemmas -/

theorem typeCounts_foldl (items : List ContentItem) :
    ∀ (f : String → Nat) (k : String),
      (items.foldl (fun f it => fun s => if s = it.typeName then f s + 1 else f s) f) k =
        f k + items.countP (fun it => it.typeName == k) := by
  induction items with
  | nil => intro f k; simp [List.countP, List.countP.go]
  | cons it rest ih =>
    intro f k
    rw [List.foldl_cons, ih, List.countP_cons]
    by_cases h : it.typeName = k
    · simp [h]
      omega
    · have : (it.typeName == k) = false := by simpa using h
      simp [this, Ne.symm h]

theorem typeCounts_eq (items : List ContentItem) (k : String) :
    typeCounts items k = items.countP (fun it => it.typeName == k) := by
  unfold typeCounts
  rw [typeCounts_foldl]
  omega

theorem countP_typeName_paragraph (items : List ContentItem) :
    items.countP (fun it => it.typeName == "paragraph") =
      items.countP ContentItem.isParagraph := by
  apply List.countP_congr
  intro it _
  cases it <;> simp [ContentItem.typeName, ContentItem.isParagraph]

theorem countP_typeName_text (items : List ContentItem) :
    items.countP (fun it => it.typeName == "text") =
      items.countP ContentItem.isPlainText := by
  apply List.countP_congr
  intro it _
  cases it <;> simp [ContentItem.typeName, ContentItem.isPlainText]

theorem headerLines_length (md : Metadata) (n1 : String) :
    (headerLines md n1).length = 10 := by
  rfl

end WebScraper

namespace WebScraper

/-! Section: Claim theorems -/

/-- C1 (counterexample): rendering is not a pure function of
`(items, metadata)` — with the same empty item sequence and the same
metadata, two invocations whose clock readings differ produce different
output text (the 생성일 header line differs). -/
theorem C1_render_depends_on_clock :
    create_markdown [] mdSample "2024-01-01 00:00" "2024-01-01 00:00:00" ≠
      create_markdown [] mdSample "2024-01-02 09:30" "2024-01-02 09:30:00" := by
  decide

/-- C1 (amended): rendering is a pure function of `(items, metadata)` and the
two clock readings taken during rendering; every output line except the
생성일 header line and the final 생성 시간 line is independent of the clock —
the output always decomposes as a clock-free front, the 생성일 line, a
clock-free middle, and the 생성 시간 line. -/
theorem C1_render_pure_modulo_timestamps (items : List ContentItem) (md : Metadata)
    (now1 now2 : String) :
    create_markdown items md now1 now2 =
      mdFront md ++ ["**생성일**: " ++ now1] ++ mdMiddle items ++
        ["*생성 시간: " ++ now2 ++ "*"] := by
  simp [create_markdown, headerLines, statsLines, mdFront, mdMiddle]

/-- C2 (counterexample): the `<pre>` element containing tab, foo, newline,
tab, bar is extracted as a code block whose content is "foo", newline, four
spaces, "bar" — `str.strip()` also removes the expanded indentation of the
first line — not the claimed four spaces, foo, newline, four spaces, bar. -/
theorem C2_pre_block_content :
    extract_all_text_content preFooBar = [.code "foo\n    bar" "text"] ∧
    clean_code_text "\tfoo\n\tbar" ≠ "    foo\n    bar" := by
  constructor
  · decide
  · decide

/-- C2 (amended): extraction followed by rendering of that `<pre>` produces a
fenced code block with language tag "text" whose content is "foo", newline,
four spaces, "bar": tabs expanded to four spaces, the outer whitespace of the
whole block (including the expanded indentation of the first line) trimmed,
and the internal newline and the second line's indentation intact. -/
theorem C2_pre_block_render (md : Metadata) (now1 now2 : String) :
    SubSeg ["```text", "foo\n    bar", "```"]
      (create_markdown (extract_all_text_content preFooBar) md now1 now2) ∧
    clean_code_text "\tfoo\n\tbar" = "foo\n    bar" := by
  constructor
  · have h : extract_all_text_content preFooBar = [.code "foo\n    bar" "text"] := by
      decide
    rw [h]
    refine ⟨headerLines md now1, [""] ++ statsLines [.code "foo\n    bar" "text"] now2, ?_⟩
    simp [create_markdown, renderItem]
  · decide

/-- C3 (counterexample): in `c3Table` the very first row is skipped as empty
and the first surviving row contains a `th`, yet it is kept as an ordinary
data row and the headers remain empty — the first surviving row does not
become the header. -/
theorem C3_later_th_row_not_header :
    extract_table_data c3Table = some ⟨[], [["X", "Y"]]⟩ ∧
    rowSurvives (.elem "tr" [.elem "td" [.text ""]]) = false ∧
    rowSurvives c3Row2 = true ∧
    rowHasTh c3Row2 = true := by
  refine ⟨by decide, by decide, by decide, by decide⟩

/-- C3 (amended): for every table, the row at index 0 in document order
becomes the header row iff it survives sanitization and contains at least one
header-cell node; every other surviving row — including a first-surviving row
with a `th` at a later index — is kept as an ordinary data row. -/
theorem C3_header_only_from_first_row (t : Node) :
    extract_table_data t =
      if dataRowsOfTrs (tableTrs t) = [] then none
      else some ⟨headerOfTrs (tableTrs t), dataRowsOfTrs (tableTrs t)⟩ :=
  extract_table_data_eq t

/-- C4 (counterexample): a bare text node of exactly 2 characters is dropped,
not emitted (its sanitized text "ab" has length 2, but the extractor requires
length > 2), and a paragraph whose inline-formatted text is the single
character "a" is dropped, not emitted. -/
theorem C4_two_char_text_dropped :
    extract_all_text_content (.text "ab") = [] ∧
    clean_text "ab" = "ab" ∧
    extract_all_text_content (.elem "p" [.text "a"]) = [] ∧
    process_inline_elements [.text "a"] = "a" := by
  refine ⟨by decide, by decide, by decide, by decide⟩

/-- C4 (amended): a bare text node is dropped exactly when its sanitized text
is shorter than 3 characters (a 3-character text node is emitted as
PlainText), and a paragraph, bold, or italic element is dropped exactly when
its sanitized/trimmed text is shorter than 2 characters. -/
theorem C4_noise_thresholds (s : String) (cs : List Node) (level : Nat)
    (parent : Option String) :
    (processElement (.text s) level parent =
      if 3 ≤ (clean_text s).length then [.plainText (clean_text s) level] else []) ∧
    (processElement (.elem "p" cs) level parent =
      if 2 ≤ (process_inline_elements cs).length
      then [.paragraph (process_inline_elements cs)] else []) ∧
    (processElement (.elem "b" cs) level parent =
      if 2 ≤ (clean_text (getTextList cs)).length
      then [.bold (clean_text (getTextList cs))] else []) ∧
    (processElement (.elem "i" cs) level parent =
      if 2 ≤ (clean_text (getTextList cs)).length
      then [.italic (clean_text (getTextList cs))] else []) := by
  refine ⟨?_, ?_, ?_, ?_⟩
  · rw [processElement]
    by_cases h : 3 ≤ (clean_text s).length
    · have hne : clean_text s ≠ "" := by
        intro he
        rw [he] at h
        simp at h
      simp [h, hne]
      omega
    · simp [h]
      intro hne
      omega
  · have hp : lowerStr "p" = "p" := by decide
    rw [processElement]
    by_cases h : 2 ≤ (process_inline_elements cs).length
    · have hne : process_inline_elements cs ≠ "" := by
        intro he
        rw [he] at h
        simp at h
      simp [hp, h, hne]
      omega
    · simp [hp, h]
      intro hne
      omega
  · have hp : lowerStr "b" = "b" := by decide
    rw [processElement]
    by_cases h : 2 ≤ (clean_text (getTextList cs)).length
    · have hne : clean_text (getTextList cs) ≠ "" := by
        intro he
        rw [he] at h
        simp at h
      simp [hp, h, hne]
      omega
    · simp [hp, h]
      intro hne
      omega
  · have hp : lowerStr "i" = "i" := by decide
    rw [processElement]
    by_cases h : 2 ≤ (clean_text (getTextList cs)).length
    · have hne : clean_text (getTextList cs) ≠ "" := by
        intro he
        rw [he] at h
        simp at h
      simp [hp, h, hne]
      omega
    · simp [hp, h]
      intro hne
      omega

/-- C5: prose sanitization is idempotent — for every string x,
`clean_text (clean_text x) = clean_text x`. -/
theorem C5_clean_text_idempotent (x : String) :
    clean_text (clean_text x) = clean_text x := by
  unfold clean_text
  rw [cleanTextL_idem]

/-- C6: classification is terminal for tables — whatever the children of a
`<table>` element are (a nested `<p>` included), the extractor emits at most
one item for the whole table subtree, and every emitted item is a Table item
(so never a separate Paragraph item). -/
theorem C6_table_classification_terminal (cs : List Node) (level : Nat)
    (parent : Option String) :
    ((processElement (.elem "table" cs) level parent).all ContentItem.isTable) = true ∧
    (processElement (.elem "table" cs) level parent).length ≤ 1 := by
  have h : lowerStr "table" = "table" := by decide
  cases htd : extract_table_data (.elem "table" cs) with
  | none => simp [processElement, h, htd, ContentItem.isTable]
  | some td => simp [processElement, h, htd, ContentItem.isTable]

/-- C7: table extraction returns `none` exactly when zero data rows survive
sanitization, and every non-`none` result contains at least one data row —
so a table whose only surviving row is the header is discarded. -/
theorem C7_table_none_iff_no_data_rows (t : Node) :
    (extract_table_data t = none ↔ dataRowsOfTrs (tableTrs t) = []) ∧
    ∀ d : TableData, extract_table_data t = some d → d.rows ≠ [] := by
  rw [extract_table_data_eq t]
  constructor
  · by_cases h : dataRowsOfTrs (tableTrs t) = [] <;> simp [h]
  · intro d hd
    by_cases h : dataRowsOfTrs (tableTrs t) = []
    · rw [if_pos h] at hd
      exact absurd hd (by simp)
    · rw [if_neg h] at hd
      have : d = ⟨headerOfTrs (tableTrs t), dataRowsOfTrs (tableTrs t)⟩ :=
        (Option.some_injective _ hd).symm
      rw [this]
      exact h

/-- C7 (witness): on the concrete two-row table the non-`none` result has a
non-empty data-row list, and on the concrete header-only table — whose header
row survives — the result is `none`. -/
theorem C7_table_none_iff_no_data_rows_witness :
    (TableData.mk ["H"] [["x"]]).rows ≠ [] ∧
    extract_table_data headerOnlyTable = none := by
  constructor
  · exact (C7_table_none_iff_no_data_rows twoRowTable).2 ⟨["H"], [["x"]]⟩ (by decide)
  · exact (C7_table_none_iff_no_data_rows headerOnlyTable).1.mpr (by decide)

/-- C8: in every rendered document, the footer's combined 문단 (paragraph)
line shows exactly the number of Paragraph items plus the number of PlainText
items present in the sequence, and the 추출된 총 요소 (total elements) line
shows exactly the length of the sequence. -/
theorem C8_footer_counts (items : List ContentItem) (md : Metadata)
    (now1 now2 : String) :
    (create_markdown items md now1 now2)[10 + (items.flatMap renderItem).length + 6]? =
      some ("- **문단**: " ++
        toString (items.countP ContentItem.isParagraph +
          items.countP ContentItem.isPlainText) ++ "개") ∧
    (create_markdown items md now1 now2)[10 + (items.flatMap renderItem).length + 4]? =
      some ("- **추출된 총 요소**: " ++ toString items.length ++ "개") := by
  have hc : typeCounts items "paragraph" + typeCounts items "text" =
      items.countP ContentItem.isParagraph + items.countP ContentItem.isPlainText := by
    rw [typeCounts_eq, typeCounts_eq, countP_typeName_paragraph, countP_typeName_text]
  unfold create_markdown
  rw [List.append_assoc]
  constructor
  · rw [List.getElem?_append_right (by rw [headerLines_length]; omega)]
    rw [headerLines_length]
    have h1 : 10 + (items.flatMap renderItem).length + 6 - 10 =
        (items.flatMap renderItem).length + 6 := by omega
    rw [h1]
    rw [List.getElem?_append_right (by omega)]
    have h2 : (items.flatMap renderItem).length + 6 - (items.flatMap renderItem).length =
        6 := by omega
    rw [h2, ← hc]
    rfl
  · rw [List.getElem?_append_right (by rw [headerLines_length]; omega)]
    rw [headerLines_length]
    have h1 : 10 + (items.flatMap renderItem).length + 4 - 10 =
        (items.flatMap renderItem).length + 4 := by omega
    rw [h1]
    rw [List.getElem?_append_right (by omega)]
    have h2 : (items.flatMap renderItem).length + 4 - (items.flatMap renderItem).length =
        4 := by omega
    rw [h2]
    rfl

/-- C9: importing the `web_scraper` package always fails — its `__init__`
requests `generate_filename` from `utils`, but `utils` binds no such name
(it defines `generate_output_paths`), so module initialization raises
ImportError and none of the declared public symbols become reachable. -/
theorem C9_package_import_fails :
    webScraperPackageInit =
      .error "ImportError: cannot import name generate_filename" ∧
    utilsModuleNames.contains "generate_filename" = false := by
  constructor
  · rfl
  · decide

/-- C10: every content item the extractor emits carries non-empty content
within the guard bounds — PlainText text length at least 3, Heading at least
1, Paragraph/Bold/Italic at least 2, CodeBlock at least 6, and every string
of a List item non-empty. -/
theorem C10_emitted_items_nonempty (root : Node) :
    (extract_all_text_content root).all itemOk = true :=
  processElement_ok root 0 none

end WebScraper
